import Mathlib

/-!
Verification of the quasar-qrn ARN library: the builder (`src/builder.rs`)
and the string grammar / parser described by the specification.

Strings are embedded as lists of characters (`Str := List Char`), fallible
operations return `Except ArnError`, and the builder's accumulation state
(`PrivateArnBuilder` in `src/builder.rs`) is an explicit record of optional
components.  The component types, their constructors, the error type and the
parser live in files of the repository that are not present under `src/`;
those are modelled from the specification and marked as such in their doc
comments.  `src/builder.rs` itself is embedded directly.
-/

namespace Qrn

/-- A Rust string slice, embedded as its character sequence. -/
abbrev Str := List Char

/-- Modelled from the spec: the error enum `ArnError` (errors.rs is not under
src/).  Section 7 of the spec lists `MissingPart(name)`, `InvalidPrefix(token)`,
`InvalidFormat`, and a per-component `ValidationError` tagged with which
component failed. -/
inductive ArnError where
  | MissingPart (name : String)
  | InvalidPrefix (token : String)
  | InvalidFormat
  | ValidationError (component : String)
deriving DecidableEq

/-- The `Domain` component: a validated string wrapper. -/
structure Domain where
  value : Str
deriving DecidableEq

/-- The `Category` component. -/
structure Category where
  value : Str
deriving DecidableEq

/-- The `Account` component. -/
structure Account where
  value : Str
deriving DecidableEq

/-- The `Root` component. -/
structure Root where
  value : Str
deriving DecidableEq

/-- A single path `Part` component. -/
structure Part where
  value : Str
deriving DecidableEq

/-- The ordered `Parts` sequence. -/
structure Parts where
  parts : List Part
deriving DecidableEq

/-- Modelled from the spec: the character policy for `Domain`/`Root`
(section 4.1: non-empty, characters in `[A-Za-z0-9-_]`). -/
def domainCharOk (c : Char) : Bool :=
  c.isAlphanum || c = '-' || c = '_'

/-- Modelled from the spec: `Domain::new` (model.rs is not under src/; its
fallibility is visible at the call site `Domain::new(part)?` in
`src/builder.rs`).  Section 4.1: reject the empty string and characters
outside `[A-Za-z0-9-_]`. -/
def Domain.new (s : Str) : Except ArnError Domain :=
  if s = [] then .error (.ValidationError "domain")
  else if s.all domainCharOk then .ok ⟨s⟩
  else .error (.ValidationError "domain")

/-- `Category::new`: infallible, as forced by its call site in
`src/builder.rs` (`self.category = Some(Category::new(part))`, no `?`,
field of type `Option<Category>`). -/
def Category.new (s : Str) : Category := ⟨s⟩

/-- `Account::new`: infallible, as forced by its call site in
`src/builder.rs` (`self.account = Some(Account::new(part))`, no `?`). -/
def Account.new (s : Str) : Account := ⟨s⟩

/-- Modelled from the spec: `Root::new` (fallible at its call site
`Root::new(part)?` in `src/builder.rs`); section 4.1 validates `Root`
like `Domain`. -/
def Root.new (s : Str) : Except ArnError Root :=
  if s = [] then .error (.ValidationError "root")
  else if s.all domainCharOk then .ok ⟨s⟩
  else .error (.ValidationError "root")

/-- Modelled from the spec: `Part::new` (fallible at its call site
`Part::new(part)?` in `src/builder.rs`); section 4.1: a `Part` must be
non-empty. -/
def Part.new (s : Str) : Except ArnError Part :=
  if s = [] then .error (.ValidationError "part")
  else .ok ⟨s⟩

/-- `Parts::new` wraps a list of parts (`Parts::new(Vec::new())` in
`src/builder.rs`). -/
def Parts.new (l : List Part) : Parts := ⟨l⟩

/-- `Parts::add_part` appends one part at the end, keeping insertion order. -/
def Parts.add_part (p : Parts) (x : Part) : Parts := ⟨p.parts ++ [x]⟩

/-- Modelled from the spec: the literal token `Domain::prefix()` returns
(traits.rs/model.rs are not under src/).  The spec calls it "a literal
token" distinct from the positional token `""` and the repeatable-part
token `":"` ("Domain has its own named prefix", section 4.2). -/
def domainPrefixToken : String := "arn:"

/-- The assembled identifier (`Arn`). -/
structure Arn where
  domain : Domain
  category : Category
  account : Account
  root : Root
  parts : Parts
deriving DecidableEq

/-- `Arn::new`: the constructor used by a completed builder. -/
def Arn.new (d : Domain) (c : Category) (a : Account) (r : Root) (p : Parts) : Arn :=
  ⟨d, c, a, r, p⟩

/-- The private accumulation state of the builder
(`PrivateArnBuilder` in `src/builder.rs`). -/
structure PrivateArnBuilder where
  domain : Option Domain
  category : Option Category
  account : Option Account
  root : Option Root
  parts : Parts
deriving DecidableEq

/-- `PrivateArnBuilder::new` in `src/builder.rs`: all slots empty. -/
def PrivateArnBuilder.new : PrivateArnBuilder :=
  ⟨none, none, none, none, Parts.new []⟩

/-- `PrivateArnBuilder::add_part` in `src/builder.rs`, embedded arm by arm:
the guard arm for `Domain::prefix()`, the literal `""` arm with its
positional-inference conditional chain, the literal `":"` arm, and the
catch-all returning `InvalidPrefix`. -/
def PrivateArnBuilder.add_part (b : PrivateArnBuilder) (pfx : String) (part : Str) :
    Except ArnError PrivateArnBuilder :=
  if pfx = domainPrefixToken then
    (Domain.new part).map fun d => { b with domain := some d }
  else if pfx = "" then
    if b.domain.isSome && b.category.isNone then
      .ok { b with category := some (Category.new part) }
    else if b.category.isSome && b.account.isNone then
      .ok { b with account := some (Account.new part) }
    else if b.account.isSome && b.root.isNone then
      (Root.new part).map fun r => { b with root := some r }
    else
      (Part.new part).map fun p => { b with parts := b.parts.add_part p }
  else if pfx = ":" then
    (Part.new part).map fun p => { b with parts := b.parts.add_part p }
  else
    .error (.InvalidPrefix pfx)

/-- `PrivateArnBuilder::build` in `src/builder.rs`: `ok_or` chain over the
four mandatory slots, in the order domain, category, account, root. -/
def PrivateArnBuilder.build (b : PrivateArnBuilder) : Except ArnError Arn :=
  match b.domain with
  | none => .error (.MissingPart "domain")
  | some d =>
    match b.category with
    | none => .error (.MissingPart "category")
    | some c =>
      match b.account with
      | none => .error (.MissingPart "account")
      | some a =>
        match b.root with
        | none => .error (.MissingPart "root")
        | some r => .ok (Arn.new d c a r b.parts)

/-- Splitting a character sequence at every occurrence of a separator
character (the embedding of Rust's `split(sep)`): `splitOnChar c s` always
returns at least one (possibly empty) segment. -/
def splitOnChar (c : Char) : Str → List Str
  | [] => [[]]
  | x :: xs =>
    if x = c then [] :: splitOnChar c xs
    else
      match splitOnChar c xs with
      | [] => [[x]]
      | y :: ys => (x :: y) :: ys

/-- Modelled from the spec: `Parts` formats by joining its parts with `/`
(section 3); the empty sequence formats to the empty string. -/
def Parts.toString (p : Parts) : Str :=
  match p.parts with
  | [] => []
  | x :: xs => x.value ++ (xs.map fun q => '/' :: q.value).flatten

/-- The `[/<part>]*` suffix of the canonical grammar: each part preceded
by one `/`. -/
def partsSuffix : List Part → Str
  | [] => []
  | p :: ps => '/' :: (p.value ++ partsSuffix ps)

/-- Modelled from the spec: formatting an identifier to its canonical string
`arn:<domain>:<category>:<account>:<root>[/<part>]*` (section 6; the
`Display` implementation is not under src/).  With no parts the string has
no trailing slash (section 8). -/
def Arn.format (x : Arn) : Str :=
  "arn".data ++ ':' :: (x.domain.value ++ ':' :: (x.category.value ++
    ':' :: (x.account.value ++ ':' :: (x.root.value ++ partsSuffix x.parts.parts))))

/-- Modelled from the spec: the parser validates `Category` segments with the
component rule of section 4.1 (non-empty). -/
def Category.validate (s : Str) : Except ArnError Category :=
  if s = [] then .error (.ValidationError "category") else .ok (Category.new s)

/-- Modelled from the spec: the parser validates `Account` segments with the
component rule of section 4.1 (non-empty). -/
def Account.validate (s : Str) : Except ArnError Account :=
  if s = [] then .error (.ValidationError "account") else .ok (Account.new s)

/-- Modelled from the spec: the parser wraps each `/`-separated sub-segment
after the root into a `Part` in order, failing on the first invalid one
(section 4.3 step 3). -/
def parseParts : List Str → Except ArnError (List Part)
  | [] => .ok []
  | v :: vs =>
    match Part.new v with
    | .error e => .error e
    | .ok p =>
      match parseParts vs with
      | .error e => .error e
      | .ok ps => .ok (p :: ps)

/-- Modelled from the spec: section 4.3 steps 2-5 once the scheme segment has
been checked — the four remaining `:`-segments map to Domain, Category,
Account and the combined Root+Parts tail; the tail is split on `/`, its head
is the Root and the rest are Parts; every segment is validated with its
component's rule. -/
def parse5 (d c a tail : Str) : Except ArnError Arn :=
  match Domain.new d with
  | .error e => .error e
  | .ok dom =>
    match Category.validate c with
    | .error e => .error e
    | .ok cat =>
      match Account.validate a with
      | .error e => .error e
      | .ok acc =>
        match splitOnChar '/' tail with
        | [] => .error .InvalidFormat
        | r :: ps =>
          match Root.new r with
          | .error e => .error e
          | .ok root =>
            match parseParts ps with
            | .error e => .error e
            | .ok prts => .ok (Arn.new dom cat acc root (Parts.new prts))

/-- Modelled from the spec: dispatch on how many `:`-segments follow the
scheme segment — fewer than four yields `MissingPart` naming the first absent
mandatory field, more than four yields `InvalidFormat` (section 4.3 step 2
and the edge cases of section 4.3). -/
def parseRest : List Str → Except ArnError Arn
  | [d, c, a, tail] => parse5 d c a tail
  | [] => .error (.MissingPart "domain")
  | [_] => .error (.MissingPart "category")
  | [_, _] => .error (.MissingPart "account")
  | [_, _, _] => .error (.MissingPart "root")
  | _ => .error .InvalidFormat

/-- Modelled from the spec: `ArnParser::new(s).parse()` (parser.rs is not
under src/).  Section 4.3 step 1: split on `:`, require the literal scheme
segment `arn` (else `InvalidFormat`), then process the remaining segments. -/
def ArnParser.parse (s : Str) : Except ArnError Arn :=
  match splitOnChar ':' s with
  | [] => .error .InvalidFormat
  | sch :: rest =>
    if sch = "arn".data then parseRest rest else .error .InvalidFormat

/-- A character that is neither of the two structural delimiters. -/
def noDelim (s : Str) : Bool :=
  s.all fun ch => ch ≠ ':' && ch ≠ '/'

/-- Modelled from the spec: a valid identifier (sections 3 and 6) — the four
mandatory components are present and non-empty, Domain and Root satisfy the
`[A-Za-z0-9-_]` policy, and no component value contains the delimiters `:`
or `/`. -/
def Arn.valid (x : Arn) : Prop :=
  x.domain.value ≠ [] ∧ x.domain.value.all domainCharOk = true ∧
  x.category.value ≠ [] ∧ noDelim x.category.value = true ∧
  x.account.value ≠ [] ∧ noDelim x.account.value = true ∧
  x.root.value ≠ [] ∧ x.root.value.all domainCharOk = true ∧
  (∀ p ∈ x.parts.parts, p.value ≠ [] ∧ noDelim p.value = true)

instance (x : Arn) : Decidable x.valid := by
  unfold Arn.valid
  infer_instance

/-- Modelled from the spec: the component kinds of the type-state builder
and the states of the typed handle `ArnBuilder<State>` (the `ArnComponent`
trait and its implementations are not under src/).  A state is named after
the component expected next; `parts` is the state reached after the first
part has been added. -/
inductive CompKind where
  | domain
  | category
  | account
  | root
  | part
  | parts
deriving DecidableEq, Fintype

/-- Modelled from the spec: each component kind's declared "next state"
(section 4.2 order `Start → Domain → Category → Account → Root → Part*`;
a part-accepting state keeps accepting parts). -/
def nextOf : CompKind → CompKind
  | .domain => .category
  | .category => .account
  | .account => .root
  | .root => .part
  | .part => .parts
  | .parts => .parts

/-- The compile-time legality constraint of `ArnBuilder::with` in
`src/builder.rs`: from the typed state `cur`, kind `k` may be supplied
exactly when `N::NextState = T::NextState`. -/
def withAllowed (cur k : CompKind) : Bool :=
  nextOf k == nextOf cur

/-- `build()` is implemented in `src/builder.rs` only for the `Part` and
`Parts` states of the typed handle. -/
def canBuild : CompKind → Bool
  | .part => true
  | .parts => true
  | _ => false

/-- Folding a sequence of statically-known component kinds through the typed
transitions, starting from a given state; `none` means some call in the
sequence is ill-typed, i.e. it has no counterpart in the Rust API. -/
def runBuilder : CompKind → List CompKind → Option CompKind
  | s, [] => some s
  | s, k :: ks => if withAllowed s k then runBuilder (nextOf k) ks else none

/-! ### Splitting lemmas -/

theorem splitOnChar_of_not_mem {c : Char} {s : Str} (h : c ∉ s) :
    splitOnChar c s = [s] := by
  induction s with
  | nil => rfl
  | cons x xs ih =>
    have hx : ¬ x = c := fun e => h (e ▸ List.mem_cons_self x xs)
    have hxs : c ∉ xs := fun m => h (List.mem_cons_of_mem _ m)
    unfold splitOnChar
    rw [if_neg hx, ih hxs]

theorem splitOnChar_append {c : Char} {a : Str} (b : Str) (h : c ∉ a) :
    splitOnChar c (a ++ c :: b) = a :: splitOnChar c b := by
  induction a with
  | nil =>
    show splitOnChar c (c :: b) = [] :: splitOnChar c b
    simp only [splitOnChar]
    exact if_pos trivial
  | cons x xs ih =>
    have hx : ¬ x = c := fun e => h (e ▸ List.mem_cons_self x xs)
    have hxs : c ∉ xs := fun m => h (List.mem_cons_of_mem _ m)
    show splitOnChar c (x :: (xs ++ c :: b)) = (x :: xs) :: splitOnChar c b
    simp only [splitOnChar]
    rw [if_neg hx, ih hxs]

theorem not_mem_partsSuffix {c : Char} (hc : c ≠ '/') {ps : List Part}
    (h : ∀ p ∈ ps, c ∉ p.value) : c ∉ partsSuffix ps := by
  induction ps with
  | nil => simp [partsSuffix]
  | cons p ps ih =>
    intro hmem
    rw [partsSuffix] at hmem
    rcases List.mem_cons.1 hmem with h1 | h2
    · exact hc h1
    · rcases List.mem_append.1 h2 with h3 | h4
      · exact h p (List.mem_cons_self p ps) h3
      · exact ih (fun q hq => h q (List.mem_cons_of_mem _ hq)) h4

theorem splitOnChar_slash_partsSuffix (r : Str) (ps : List Part)
    (hr : '/' ∉ r) (hp : ∀ p ∈ ps, '/' ∉ p.value) :
    splitOnChar '/' (r ++ partsSuffix ps) = r :: ps.map Part.value := by
  induction ps generalizing r with
  | nil =>
    rw [partsSuffix, List.append_nil, splitOnChar_of_not_mem hr]
    rfl
  | cons p ps ih =>
    rw [partsSuffix, splitOnChar_append _ hr,
      ih p.value (hp p (List.mem_cons_self p ps))
        (fun q hq => hp q (List.mem_cons_of_mem _ hq))]
    rfl

/-! ### Validation lemmas -/

theorem domain_new_ok {s : Str} (h1 : s ≠ []) (h2 : s.all domainCharOk = true) :
    Domain.new s = .ok ⟨s⟩ := by
  unfold Domain.new
  rw [if_neg h1, if_pos h2]

theorem root_new_ok {s : Str} (h1 : s ≠ []) (h2 : s.all domainCharOk = true) :
    Root.new s = .ok ⟨s⟩ := by
  unfold Root.new
  rw [if_neg h1, if_pos h2]

theorem part_new_ok {s : Str} (h1 : s ≠ []) : Part.new s = .ok ⟨s⟩ := by
  unfold Part.new
  rw [if_neg h1]

theorem category_validate_ok {s : Str} (h1 : s ≠ []) :
    Category.validate s = .ok ⟨s⟩ := by
  unfold Category.validate
  rw [if_neg h1]
  rfl

theorem account_validate_ok {s : Str} (h1 : s ≠ []) :
    Account.validate s = .ok ⟨s⟩ := by
  unfold Account.validate
  rw [if_neg h1]
  rfl

theorem not_mem_of_all_domainCharOk {s : Str} (h : s.all domainCharOk = true)
    {c : Char} (hc : domainCharOk c = false) : c ∉ s := by
  intro hm
  have h2 := List.all_eq_true.1 h c hm
  rw [hc] at h2
  exact Bool.false_ne_true h2

theorem not_mem_colon_of_noDelim {s : Str} (h : noDelim s = true) : ':' ∉ s := by
  intro hm
  have h2 := List.all_eq_true.1 h _ hm
  simp at h2

theorem not_mem_slash_of_noDelim {s : Str} (h : noDelim s = true) : '/' ∉ s := by
  intro hm
  have h2 := List.all_eq_true.1 h _ hm
  simp at h2

theorem parseParts_map_value (ps : List Part) (h : ∀ p ∈ ps, p.value ≠ []) :
    parseParts (ps.map Part.value) = .ok ps := by
  induction ps with
  | nil => rfl
  | cons p ps ih =>
    rw [List.map_cons]
    unfold parseParts
    rw [part_new_ok (h p (List.mem_cons_self p ps)),
      ih (fun q hq => h q (List.mem_cons_of_mem _ hq))]

/-! ### The round-trip helper -/

theorem parse5_ok (d c a r : Str) (ps : List Part)
    (hd1 : d ≠ []) (hd2 : d.all domainCharOk = true)
    (hc1 : c ≠ []) (ha1 : a ≠ [])
    (hr1 : r ≠ []) (hr2 : r.all domainCharOk = true)
    (hp : ∀ p ∈ ps, p.value ≠ [] ∧ noDelim p.value = true) :
    parse5 d c a (r ++ partsSuffix ps) =
      .ok (Arn.new ⟨d⟩ ⟨c⟩ ⟨a⟩ ⟨r⟩ (Parts.new ps)) := by
  have hrs : '/' ∉ r := not_mem_of_all_domainCharOk hr2 (by decide)
  have hps : ∀ p ∈ ps, '/' ∉ p.value :=
    fun p hp2 => not_mem_slash_of_noDelim (hp p hp2).2
  have hpn : ∀ p ∈ ps, p.value ≠ [] := fun p hp2 => (hp p hp2).1
  simp only [parse5, domain_new_ok hd1 hd2, category_validate_ok hc1,
    account_validate_ok ha1, splitOnChar_slash_partsSuffix r ps hrs hps,
    root_new_ok hr1 hr2, parseParts_map_value ps hpn]

theorem parse_format_eq (x : Arn) (h : x.valid) :
    ArnParser.parse (Arn.format x) = .ok x := by
  obtain ⟨⟨d⟩, ⟨c⟩, ⟨a⟩, ⟨r⟩, ⟨ps⟩⟩ := x
  obtain ⟨hd1, hd2, hc1, hc2, ha1, ha2, hr1, hr2, hp⟩ := h
  have harn : ':' ∉ "arn".data := by decide
  have hdc : ':' ∉ d := not_mem_of_all_domainCharOk hd2 (by decide)
  have hcc : ':' ∉ c := not_mem_colon_of_noDelim hc2
  have hac : ':' ∉ a := not_mem_colon_of_noDelim ha2
  have htail : ':' ∉ r ++ partsSuffix ps := by
    intro hm
    rcases List.mem_append.1 hm with h1 | h2
    · exact not_mem_of_all_domainCharOk hr2 (by decide) h1
    · exact not_mem_partsSuffix (by decide)
        (fun p hp2 => not_mem_colon_of_noDelim (hp p hp2).2) h2
  have hsplit : splitOnChar ':'
      (Arn.format ⟨⟨d⟩, ⟨c⟩, ⟨a⟩, ⟨r⟩, ⟨ps⟩⟩) =
      ["arn".data, d, c, a, r ++ partsSuffix ps] := by
    unfold Arn.format
    rw [splitOnChar_append _ harn, splitOnChar_append _ hdc,
      splitOnChar_append _ hcc, splitOnChar_append _ hac,
      splitOnChar_of_not_mem htail]
  unfold ArnParser.parse
  rw [hsplit]
  show (if "arn".data = "arn".data then
      parseRest [d, c, a, r ++ partsSuffix ps]
    else .error .InvalidFormat) = .ok (⟨⟨d⟩, ⟨c⟩, ⟨a⟩, ⟨r⟩, ⟨ps⟩⟩ : Arn)
  rw [if_pos rfl]
  show parse5 d c a (r ++ partsSuffix ps) = .ok (⟨⟨d⟩, ⟨c⟩, ⟨a⟩, ⟨r⟩, ⟨ps⟩⟩ : Arn)
  exact parse5_ok d c a r ps hd1 hd2 hc1 ha1 hr1 hr2 hp

/-! ### Builder lemmas -/

theorem except_map_eq_ok {α β : Type} {f : α → β} {x : Except ArnError α}
    {b : β} (h : x.map f = .ok b) : ∃ a, x = .ok a ∧ b = f a := by
  cases x with
  | error e => simp [Except.map] at h
  | ok a =>
    simp only [Except.map, Except.ok.injEq] at h
    exact ⟨a, rfl, h.symm⟩

/-! ### Type-state lemmas -/

theorem runBuilder_cons {s k : CompKind} {ks : List CompKind} {s' : CompKind}
    (h : runBuilder s (k :: ks) = some s') :
    withAllowed s k = true ∧ runBuilder (nextOf k) ks = some s' := by
  rw [runBuilder] at h
  by_cases hw : withAllowed s k = true
  · rw [if_pos hw] at h
    exact ⟨hw, h⟩
  · rw [if_neg hw] at h
    cases h

theorem runBuilder_tail : ∀ (ks : List CompKind) (s s' : CompKind),
    (s = CompKind.part ∨ s = CompKind.parts) → runBuilder s ks = some s' →
    ∀ k ∈ ks, k = CompKind.part ∨ k = CompKind.parts := by
  intro ks
  induction ks with
  | nil =>
    intro s s' _ _ k hk
    exact absurd hk (List.not_mem_nil k)
  | cons k0 ks ih =>
    intro s s' hs h k hk
    obtain ⟨hw, h⟩ := runBuilder_cons h
    have hk0 : k0 = CompKind.part ∨ k0 = CompKind.parts := by
      rcases hs with h1 | h1 <;> subst h1 <;> revert hw <;> cases k0 <;> decide
    rcases List.mem_cons.1 hk with h2 | h2
    · subst h2
      exact hk0
    · have hnx : nextOf k0 = CompKind.parts := by
        rcases hk0 with h3 | h3 <;> subst h3 <;> rfl
      exact ih (nextOf k0) s' (Or.inr hnx) h k h2

theorem runBuilder_start_shape (ks : List CompKind) (s' : CompKind)
    (h : runBuilder CompKind.domain ks = some s') (hb : canBuild s' = true) :
    ∃ tl, ks = [CompKind.domain, CompKind.category, CompKind.account,
        CompKind.root] ++ tl ∧
      ∀ k ∈ tl, k = CompKind.part ∨ k = CompKind.parts := by
  cases ks with
  | nil =>
    rw [runBuilder] at h
    injection h with h
    subst h
    exact absurd hb (by decide)
  | cons k1 ks1 =>
    obtain ⟨hw1, h⟩ := runBuilder_cons h
    have e1 : k1 = CompKind.domain := by revert hw1; cases k1 <;> decide
    subst e1
    cases ks1 with
    | nil =>
      rw [runBuilder] at h
      injection h with h
      subst h
      exact absurd hb (by decide)
    | cons k2 ks2 =>
      obtain ⟨hw2, h⟩ := runBuilder_cons h
      have e2 : k2 = CompKind.category := by revert hw2; cases k2 <;> decide
      subst e2
      cases ks2 with
      | nil =>
        rw [runBuilder] at h
        injection h with h
        subst h
        exact absurd hb (by decide)
      | cons k3 ks3 =>
        obtain ⟨hw3, h⟩ := runBuilder_cons h
        have e3 : k3 = CompKind.account := by revert hw3; cases k3 <;> decide
        subst e3
        cases ks3 with
        | nil =>
          rw [runBuilder] at h
          injection h with h
          subst h
          exact absurd hb (by decide)
        | cons k4 ks4 =>
          obtain ⟨hw4, h⟩ := runBuilder_cons h
          have e4 : k4 = CompKind.root := by revert hw4; cases k4 <;> decide
          subst e4
          exact ⟨ks4, rfl, runBuilder_tail ks4 _ s' (Or.inl rfl) h⟩

/-! ### Branch lemmas for `add_part` -/

theorem add_part_domain (b : PrivateArnBuilder) (v : Str) :
    b.add_part domainPrefixToken v =
      (Domain.new v).map fun d => { b with domain := some d } := by
  unfold PrivateArnBuilder.add_part
  rw [if_pos rfl]

theorem add_part_category (b : PrivateArnBuilder) (v : Str)
    (hd : b.domain.isSome = true) (hc : b.category = none) :
    b.add_part "" v = Except.ok { b with category := some (Category.new v) } := by
  have e1 : ¬(("" : String) = domainPrefixToken) := by decide
  unfold PrivateArnBuilder.add_part
  rw [if_neg e1, if_pos rfl,
    if_pos (show (b.domain.isSome && b.category.isNone) = true by simp [hd, hc])]

theorem add_part_account (b : PrivateArnBuilder) (v : Str)
    (hc : b.category.isSome = true) (ha : b.account = none) :
    b.add_part "" v = Except.ok { b with account := some (Account.new v) } := by
  obtain ⟨c0, hc0⟩ := Option.isSome_iff_exists.1 hc
  have e1 : ¬(("" : String) = domainPrefixToken) := by decide
  unfold PrivateArnBuilder.add_part
  rw [if_neg e1, if_pos rfl,
    if_neg (show ¬(b.domain.isSome && b.category.isNone) = true by simp [hc0]),
    if_pos (show (b.category.isSome && b.account.isNone) = true by simp [hc, ha])]

theorem add_part_root (b : PrivateArnBuilder) (v : Str)
    (hc : b.category.isSome = true) (ha : b.account.isSome = true)
    (hr : b.root = none) :
    b.add_part "" v = (Root.new v).map fun r => { b with root := some r } := by
  obtain ⟨c0, hc0⟩ := Option.isSome_iff_exists.1 hc
  obtain ⟨a0, ha0⟩ := Option.isSome_iff_exists.1 ha
  have e1 : ¬(("" : String) = domainPrefixToken) := by decide
  unfold PrivateArnBuilder.add_part
  rw [if_neg e1, if_pos rfl,
    if_neg (show ¬(b.domain.isSome && b.category.isNone) = true by simp [hc0]),
    if_neg (show ¬(b.category.isSome && b.account.isNone) = true by simp [ha0]),
    if_pos (show (b.account.isSome && b.root.isNone) = true by simp [ha, hr])]

theorem add_part_after_four (b : PrivateArnBuilder) (v : Str)
    (hc : b.category.isSome = true) (ha : b.account.isSome = true)
    (hr : b.root.isSome = true) :
    b.add_part "" v =
      (Part.new v).map fun p => { b with parts := b.parts.add_part p } := by
  obtain ⟨c0, hc0⟩ := Option.isSome_iff_exists.1 hc
  obtain ⟨a0, ha0⟩ := Option.isSome_iff_exists.1 ha
  obtain ⟨r0, hr0⟩ := Option.isSome_iff_exists.1 hr
  have e1 : ¬(("" : String) = domainPrefixToken) := by decide
  unfold PrivateArnBuilder.add_part
  rw [if_neg e1, if_pos rfl,
    if_neg (show ¬(b.domain.isSome && b.category.isNone) = true by simp [hc0]),
    if_neg (show ¬(b.category.isSome && b.account.isNone) = true by simp [ha0]),
    if_neg (show ¬(b.account.isSome && b.root.isNone) = true by simp [hr0])]

theorem add_part_colon (b : PrivateArnBuilder) (v : Str) :
    b.add_part ":" v =
      (Part.new v).map fun p => { b with parts := b.parts.add_part p } := by
  have e1 : ¬((":" : String) = domainPrefixToken) := by decide
  have e2 : ¬((":" : String) = "") := by decide
  unfold PrivateArnBuilder.add_part
  rw [if_neg e1, if_neg e2, if_pos rfl]

/-! ### Claim theorems -/

/-- C1: for every valid identifier `x`, formatting `x` to its canonical
string and parsing that string yields `x` back: `parse(format(x)) == x`. -/
theorem C1_roundtrip (x : Arn) (h : x.valid) :
    ArnParser.parse (Arn.format x) = Except.ok x :=
  parse_format_eq x h

/-- Witness for C1 at `arn:akton-internal:hr:company123:root/departmentA/team1`. -/
theorem C1_roundtrip_witness :
    (Arn.new ⟨"akton-internal".data⟩ ⟨"hr".data⟩ ⟨"company123".data⟩
        ⟨"root".data⟩ (Parts.new [⟨"departmentA".data⟩, ⟨"team1".data⟩])).valid ∧
    ArnParser.parse (Arn.format (Arn.new ⟨"akton-internal".data⟩ ⟨"hr".data⟩
        ⟨"company123".data⟩ ⟨"root".data⟩
        (Parts.new [⟨"departmentA".data⟩, ⟨"team1".data⟩]))) =
      Except.ok (Arn.new ⟨"akton-internal".data⟩ ⟨"hr".data⟩
        ⟨"company123".data⟩ ⟨"root".data⟩
        (Parts.new [⟨"departmentA".data⟩, ⟨"team1".data⟩])) :=
  ⟨by decide, C1_roundtrip _ (by decide)⟩

/-- C2 counterexample: in the fresh builder state, where none of the four
mandatory slots is set, an empty-prefix value is appended to the Parts
sequence — it neither fills the first unfilled mandatory slot nor waits for
all four slots to be set, contradicting the claim at this state. -/
theorem C2_counterexample :
    PrivateArnBuilder.new.domain = none ∧
    PrivateArnBuilder.new.category = none ∧
    PrivateArnBuilder.new.account = none ∧
    PrivateArnBuilder.new.root = none ∧
    PrivateArnBuilder.new.add_part "" ("x".data) =
      Except.ok ⟨none, none, none, none, Parts.new [⟨"x".data⟩]⟩ :=
  ⟨rfl, rfl, rfl, rfl, rfl⟩

/-- C2 (amended): in every builder state in which Domain is set, an
empty-prefix value fills the first unfilled slot among Category, Account and
Root, in that order; once all four mandatory slots are set it is appended to
the Parts sequence; and a `:`-prefixed value is always appended to Parts. -/
theorem C2_fill_order (b : PrivateArnBuilder) (v : Str) :
    (b.domain.isSome = true → b.category = none →
      b.add_part "" v = Except.ok { b with category := some (Category.new v) }) ∧
    (b.category.isSome = true → b.account = none →
      b.add_part "" v = Except.ok { b with account := some (Account.new v) }) ∧
    (b.category.isSome = true → b.account.isSome = true → b.root = none →
      b.add_part "" v = (Root.new v).map fun r => { b with root := some r }) ∧
    (b.domain.isSome = true → b.category.isSome = true →
      b.account.isSome = true → b.root.isSome = true →
      b.add_part "" v =
        (Part.new v).map fun p => { b with parts := b.parts.add_part p }) ∧
    (b.add_part ":" v =
      (Part.new v).map fun p => { b with parts := b.parts.add_part p }) := by
  refine ⟨?_, ?_, ?_, ?_, ?_⟩
  · exact add_part_category b v
  · exact add_part_account b v
  · exact add_part_root b v
  · intro _ hc ha hr
    exact add_part_after_four b v hc ha hr
  · exact add_part_colon b v

/-- Witness for C2 (amended): with Domain set and Category unset, the
empty-prefix value fills Category. -/
theorem C2_fill_order_witness :
    (PrivateArnBuilder.mk (some ⟨"akton".data⟩) none none none
        (Parts.new [])).add_part "" ("hr".data) =
      Except.ok (PrivateArnBuilder.mk (some ⟨"akton".data⟩)
        (some ⟨"hr".data⟩) none none (Parts.new [])) :=
  (C2_fill_order _ _).1 rfl rfl

/-- C3: `build()` fails with `MissingPart` naming the first never-supplied
mandatory field in the order domain, category, account, root; it succeeds
with the assembled identifier, holding exactly the supplied components and
the accumulated Parts, precisely when all four are present. -/
theorem C3_build_first_missing (b : PrivateArnBuilder) :
    (b.domain = none → b.build = Except.error (ArnError.MissingPart "domain")) ∧
    (b.domain.isSome = true → b.category = none →
      b.build = Except.error (ArnError.MissingPart "category")) ∧
    (b.domain.isSome = true → b.category.isSome = true → b.account = none →
      b.build = Except.error (ArnError.MissingPart "account")) ∧
    (b.domain.isSome = true → b.category.isSome = true →
      b.account.isSome = true → b.root = none →
      b.build = Except.error (ArnError.MissingPart "root")) ∧
    (∀ d c a r, b.domain = some d → b.category = some c → b.account = some a →
      b.root = some r → b.build = Except.ok (Arn.new d c a r b.parts)) ∧
    ((∃ n, b.build = Except.error (ArnError.MissingPart n)) ↔
      (b.domain = none ∨ b.category = none ∨ b.account = none ∨
        b.root = none)) := by
  obtain ⟨dom, cat, acc, rt, prts⟩ := b
  cases dom <;> cases cat <;> cases acc <;> cases rt <;>
    simp [PrivateArnBuilder.build, Arn.new]
  intro d c a r h1 h2 h3 h4
  exact ⟨h1, h2, h3, h4⟩

/-- Witness for C3: the fresh builder is missing "domain" first. -/
theorem C3_build_first_missing_witness :
    PrivateArnBuilder.new.build = Except.error (ArnError.MissingPart "domain") :=
  (C3_build_first_missing PrivateArnBuilder.new).1 rfl

/-- C4 counterexample: the builder accepts an empty Category value — with
Domain set, `add_part` with the empty prefix token and an empty raw value
returns `Ok` and stores `Category("")`, not a `ValidationError`. -/
theorem C4_counterexample :
    (PrivateArnBuilder.mk (some ⟨"akton".data⟩) none none none
        (Parts.new [])).add_part "" [] =
      Except.ok (PrivateArnBuilder.mk (some ⟨"akton".data⟩) (some ⟨[]⟩)
        none none (Parts.new [])) :=
  rfl

/-- C4 (amended): the empty string is rejected with a `ValidationError` for
Domain, Root and Part wherever they are constructed (builder and parser),
and the parser also rejects empty Category and Account segments; but the
builder's `add_part` accepts an empty raw value into the Category and
Account slots, storing it unvalidated. -/
theorem C4_empty_rejection (b : PrivateArnBuilder) :
    (b.add_part domainPrefixToken [] =
      Except.error (ArnError.ValidationError "domain")) ∧
    (b.category.isSome = true → b.account.isSome = true → b.root = none →
      b.add_part "" [] = Except.error (ArnError.ValidationError "root")) ∧
    (b.category.isSome = true → b.account.isSome = true → b.root.isSome = true →
      b.add_part "" [] = Except.error (ArnError.ValidationError "part")) ∧
    (b.add_part ":" [] = Except.error (ArnError.ValidationError "part")) ∧
    Domain.new [] = Except.error (ArnError.ValidationError "domain") ∧
    Root.new [] = Except.error (ArnError.ValidationError "root") ∧
    Part.new [] = Except.error (ArnError.ValidationError "part") ∧
    Category.validate [] = Except.error (ArnError.ValidationError "category") ∧
    Account.validate [] = Except.error (ArnError.ValidationError "account") ∧
    (b.domain.isSome = true → b.category = none →
      b.add_part "" [] =
        Except.ok { b with category := some (Category.new []) }) ∧
    (b.category.isSome = true → b.account = none →
      b.add_part "" [] =
        Except.ok { b with account := some (Account.new []) }) := by
  refine ⟨?_, ?_, ?_, ?_, rfl, rfl, rfl, rfl, rfl, ?_, ?_⟩
  · rw [add_part_domain b []]
    rfl
  · intro hc ha hr
    rw [add_part_root b [] hc ha hr]
    rfl
  · intro hc ha hr
    rw [add_part_after_four b [] hc ha hr]
    rfl
  · rw [add_part_colon b []]
    rfl
  · exact add_part_category b []
  · exact add_part_account b []

/-- Witness for C4 (amended): a builder with Category and Account set and
Root unset rejects an empty Root value. -/
theorem C4_empty_rejection_witness :
    (PrivateArnBuilder.mk (some ⟨"akton".data⟩) (some ⟨"hr".data⟩)
        (some ⟨"co".data⟩) none (Parts.new [])).add_part "" [] =
      Except.error (ArnError.ValidationError "root") :=
  (C4_empty_rejection _).2.1 rfl rfl rfl

/-- C5: an unrecognized prefix token — not Domain's literal token, not the
empty token, not `:` — is rejected with `InvalidPrefix` carrying that token;
no updated builder state is produced. -/
theorem C5_unknown_token (b : PrivateArnBuilder) (pfx : String) (v : Str)
    (h1 : pfx ≠ domainPrefixToken) (h2 : pfx ≠ "") (h3 : pfx ≠ ":") :
    b.add_part pfx v = Except.error (ArnError.InvalidPrefix pfx) := by
  unfold PrivateArnBuilder.add_part
  rw [if_neg h1, if_neg h2, if_neg h3]

/-- Witness for C5 at the token "bogus". -/
theorem C5_unknown_token_witness :
    PrivateArnBuilder.new.add_part "bogus" ("x".data) =
      Except.error (ArnError.InvalidPrefix "bogus") :=
  C5_unknown_token _ _ _ (by decide) (by decide) (by decide)

/-- C6: in the typed builder, a statically-known component kind is accepted
only in the required order (an out-of-order call has no typed transition, so
it is unrepresentable), and `build()` is offered exactly in the `Part` and
`Parts` states: every well-typed call sequence from the start state that
reaches a buildable state supplies Domain, Category, Account, Root in that
order and then only parts. -/
theorem C6_typestate :
    (∀ cur k : CompKind, withAllowed cur k = true ↔
      ((cur = CompKind.domain ∧ k = CompKind.domain) ∨
       (cur = CompKind.category ∧ k = CompKind.category) ∨
       (cur = CompKind.account ∧ k = CompKind.account) ∨
       (cur = CompKind.root ∧ k = CompKind.root) ∨
       ((cur = CompKind.part ∨ cur = CompKind.parts) ∧
        (k = CompKind.part ∨ k = CompKind.parts)))) ∧
    (∀ s : CompKind, canBuild s = true ↔
      (s = CompKind.part ∨ s = CompKind.parts)) ∧
    (∀ ks s', runBuilder CompKind.domain ks = some s' → canBuild s' = true →
      ∃ tl, ks = [CompKind.domain, CompKind.category, CompKind.account,
          CompKind.root] ++ tl ∧
        ∀ k ∈ tl, k = CompKind.part ∨ k = CompKind.parts) :=
  ⟨by decide, by decide, runBuilder_start_shape⟩

/-- Witness for C6: the sequence Domain, Category, Account, Root, Part is
well-typed, reaches a buildable state, and decomposes as required. -/
theorem C6_typestate_witness :
    runBuilder CompKind.domain [CompKind.domain, CompKind.category,
        CompKind.account, CompKind.root, CompKind.part] =
      some CompKind.parts ∧
    ∃ tl, [CompKind.domain, CompKind.category, CompKind.account,
        CompKind.root, CompKind.part] =
        [CompKind.domain, CompKind.category, CompKind.account,
          CompKind.root] ++ tl ∧
      ∀ k ∈ tl, k = CompKind.part ∨ k = CompKind.parts :=
  ⟨rfl, C6_typestate.2.2 _ _ rfl rfl⟩

/-- C7: parsing `arn:akton-internal:hr:company123:root/departmentA/team1`
succeeds with domain `akton-internal`, category `hr`, account `company123`,
root `root` and parts `[departmentA, team1]`, whose Parts sequence formats
to `departmentA/team1`. -/
theorem C7_parse_example :
    ArnParser.parse ("arn:akton-internal:hr:company123:root/departmentA/team1".data) =
      Except.ok (Arn.new ⟨"akton-internal".data⟩ ⟨"hr".data⟩
        ⟨"company123".data⟩ ⟨"root".data⟩
        (Parts.new [⟨"departmentA".data⟩, ⟨"team1".data⟩])) ∧
    Parts.toString (Parts.new [⟨"departmentA".data⟩, ⟨"team1".data⟩]) =
      "departmentA/team1".data :=
  ⟨rfl, rfl⟩

/-- C8: parsing `arn:custom:service:account123:resource/` (trailing slash,
hence an empty final part) fails with the part validation error, while a
tail consisting of a root alone, with no trailing slash, parses to an
identifier with an empty Parts sequence. -/
theorem C8_trailing_slash :
    ArnParser.parse ("arn:custom:service:account123:resource/".data) =
      Except.error (ArnError.ValidationError "part") ∧
    ∀ d c a r : Str, d ≠ [] → d.all domainCharOk = true → c ≠ [] →
      noDelim c = true → a ≠ [] → noDelim a = true → r ≠ [] →
      r.all domainCharOk = true →
      ArnParser.parse ("arn".data ++ ':' :: (d ++ ':' :: (c ++ ':' ::
          (a ++ ':' :: r)))) =
        Except.ok (Arn.new ⟨d⟩ ⟨c⟩ ⟨a⟩ ⟨r⟩ (Parts.new [])) := by
  constructor
  · rfl
  · intro d c a r hd1 hd2 hc1 hc2 ha1 ha2 hr1 hr2
    have h := parse_format_eq (Arn.new ⟨d⟩ ⟨c⟩ ⟨a⟩ ⟨r⟩ (Parts.new []))
      ⟨hd1, hd2, hc1, hc2, ha1, ha2, hr1, hr2,
        fun p hp => absurd hp (List.not_mem_nil p)⟩
    simpa [Arn.format, partsSuffix, Arn.new, Parts.new] using h

/-- Witness for C8's root-only clause at `arn:custom:service:account123:resource`. -/
theorem C8_trailing_slash_witness :
    ArnParser.parse ("arn:custom:service:account123:resource".data) =
      Except.ok (Arn.new ⟨"custom".data⟩ ⟨"service".data⟩
        ⟨"account123".data⟩ ⟨"resource".data⟩ (Parts.new [])) :=
  C8_trailing_slash.2 ("custom".data) ("service".data) ("account123".data)
    ("resource".data) (by decide) (by decide) (by decide) (by decide)
    (by decide) (by decide) (by decide) (by decide)

/-- C9: every successful `add_part` call changes exactly one field of the
accumulation state — it overwrites Domain, fills a previously unset
Category, Account or Root slot, or appends exactly one part to the Parts
sequence — leaving all other fields unchanged. -/
theorem C9_frame (b : PrivateArnBuilder) (pfx : String) (v : Str)
    (b' : PrivateArnBuilder) (h : b.add_part pfx v = Except.ok b') :
    (∃ d, b' = { b with domain := some d }) ∨
    (b.category = none ∧ ∃ c, b' = { b with category := some c }) ∨
    (b.account = none ∧ ∃ a, b' = { b with account := some a }) ∨
    (b.root = none ∧ ∃ r, b' = { b with root := some r }) ∨
    (∃ p, b' = { b with parts := b.parts.add_part p }) := by
  unfold PrivateArnBuilder.add_part at h
  by_cases h1 : pfx = domainPrefixToken
  · rw [if_pos h1] at h
    obtain ⟨d, _, hb⟩ := except_map_eq_ok h
    exact Or.inl ⟨d, hb⟩
  · rw [if_neg h1] at h
    by_cases h2 : pfx = ""
    · rw [if_pos h2] at h
      by_cases g1 : (b.domain.isSome && b.category.isNone) = true
      · rw [if_pos g1] at h
        injection h with h
        exact Or.inr (Or.inl ⟨Option.isNone_iff_eq_none.1
          ((Bool.and_eq_true _ _).mp g1).2, Category.new v, h.symm⟩)
      · rw [if_neg g1] at h
        by_cases g2 : (b.category.isSome && b.account.isNone) = true
        · rw [if_pos g2] at h
          injection h with h
          exact Or.inr (Or.inr (Or.inl ⟨Option.isNone_iff_eq_none.1
            ((Bool.and_eq_true _ _).mp g2).2, Account.new v, h.symm⟩))
        · rw [if_neg g2] at h
          by_cases g3 : (b.account.isSome && b.root.isNone) = true
          · rw [if_pos g3] at h
            obtain ⟨r, _, hb⟩ := except_map_eq_ok h
            exact Or.inr (Or.inr (Or.inr (Or.inl ⟨Option.isNone_iff_eq_none.1
              ((Bool.and_eq_true _ _).mp g3).2, r, hb⟩)))
          · rw [if_neg g3] at h
            obtain ⟨p, _, hb⟩ := except_map_eq_ok h
            exact Or.inr (Or.inr (Or.inr (Or.inr ⟨p, hb⟩)))
    · rw [if_neg h2] at h
      by_cases h3 : pfx = ":"
      · rw [if_pos h3] at h
        obtain ⟨p, _, hb⟩ := except_map_eq_ok h
        exact Or.inr (Or.inr (Or.inr (Or.inr ⟨p, hb⟩)))
      · rw [if_neg h3] at h
        cases h

/-- Witness for C9: appending a part through the `:` token touches only the
Parts field of the fresh builder. -/
theorem C9_frame_witness :
    (∃ d, (⟨none, none, none, none, Parts.new [⟨"x".data⟩]⟩ : PrivateArnBuilder) =
      { PrivateArnBuilder.new with domain := some d }) ∨
    (PrivateArnBuilder.new.category = none ∧
      ∃ c, (⟨none, none, none, none, Parts.new [⟨"x".data⟩]⟩ : PrivateArnBuilder) =
        { PrivateArnBuilder.new with category := some c }) ∨
    (PrivateArnBuilder.new.account = none ∧
      ∃ a, (⟨none, none, none, none, Parts.new [⟨"x".data⟩]⟩ : PrivateArnBuilder) =
        { PrivateArnBuilder.new with account := some a }) ∨
    (PrivateArnBuilder.new.root = none ∧
      ∃ r, (⟨none, none, none, none, Parts.new [⟨"x".data⟩]⟩ : PrivateArnBuilder) =
        { PrivateArnBuilder.new with root := some r }) ∨
    (∃ p, (⟨none, none, none, none, Parts.new [⟨"x".data⟩]⟩ : PrivateArnBuilder) =
      { PrivateArnBuilder.new with parts := PrivateArnBuilder.new.parts.add_part p }) :=
  C9_frame PrivateArnBuilder.new ":" ("x".data) _ rfl

/-- C10: `add_part` with Domain's prefix token always stores the newly
validated value in the domain slot, even when a domain was already set —
re-supplying Domain is accepted and the last supplied value wins. -/
theorem C10_domain_last_wins (b : PrivateArnBuilder) (v : Str) (d : Domain)
    (h : Domain.new v = Except.ok d) :
    b.add_part domainPrefixToken v = Except.ok { b with domain := some d } := by
  rw [add_part_domain b v, h]
  rfl

/-- Witness for C10: a builder whose domain is `alpha` ends up with domain
`beta` after re-supplying Domain. -/
theorem C10_domain_last_wins_witness :
    (PrivateArnBuilder.mk (some ⟨"alpha".data⟩) none none none
        (Parts.new [])).add_part domainPrefixToken ("beta".data) =
      Except.ok (PrivateArnBuilder.mk (some ⟨"beta".data⟩) none none none
        (Parts.new [])) :=
  C10_domain_last_wins _ _ _ rfl

end Qrn
